import Mathlib

/-!
Verification development for the ingress-gce resource-graph engine.

The Go sources under scrutiny are shallowly embedded below:
  * `pkg/backends/features/lbpolicy.go` — `EnsureLocalityLbPolicy` / `applyLocalityLbPolicy`
  * `pkg/firewalls/controller.go` — the firewall controller's `sync` loop
  * the fuzz/whitebox GCLB framework — `GCLB`, `GCLBForVIP`, `CheckResourceDeletion`
  * the backend pool — `Backends.Get` and the composite-type conversions produced by
    the `gen/main.go` templates.

Go pointers that may be nil are embedded as `Option`; fallible cloud calls return
`Except`/`GetResult`; mutation is embedded as explicit state passing.  Go maps keyed
by `meta.Key` are embedded as association lists with an insert-or-replace operation.
-/

/-- `meta.Key` — (name, zone, region) identifying one resource instance.
A global key has empty zone and region. -/
structure Key where
  name : String
  zone : String
  region : String
deriving DecidableEq, Repr

/-- `meta.GlobalKey(name)`. -/
def GlobalKey (name : String) : Key := ⟨name, "", ""⟩

/-- `meta.RegionalKey(name, region)`. -/
def RegionalKey (name : String) (region : String) : Key := ⟨name, "", region⟩

/-- `meta.ZonalKey(name, zone)`. -/
def ZonalKey (name : String) (zone : String) : Key := ⟨name, zone, ""⟩

/-! ## Composite types and version negotiation

`meta.Version` is a string type in Go; we keep it as `String`. -/

def VersionAlpha : String := "alpha"

def VersionBeta : String := "beta"

def VersionGA : String := "ga"

/-- Modelled from the spec: `features.IsLowerVersion` (pkg/backends/features, not under
src/) "implements the strict total order" on the three maturity tracks, where a
*lower* version is a *less stable* one (alpha is the least stable, most
feature-complete track).  The spec's policy sentence fixes the direction: a read at a
more stable version than the recovered requirement must trigger a re-fetch at the
required, less stable version, i.e. `IsLowerVersion required requested` holds exactly
when `required` is strictly less stable than `requested`.  Unknown strings rank below
all three named tracks (a missing map entry in Go yields 0). -/
def versionRank (v : String) : Nat :=
  if v = VersionGA then 3 else if v = VersionBeta then 2 else if v = VersionAlpha then 1 else 0

/-- Modelled from the spec: see `versionRank`. -/
def IsLowerVersion (v1 v2 : String) : Bool := versionRank v1 < versionRank v2

/-- Modelled from the spec: the `Description` struct of pkg/utils (not under src/),
"an opaque string … encoding the owning workload identity and markers for every
feature that forced a non-default API version".  Only the service name and the
version markers are consumed by the code under verification. -/
structure Description where
  ServiceName : String
deriving DecidableEq, Repr

/-- Split a character list at commas (structural recursion, used to decode the
opaque description encoding). -/
def splitAtCommaAux : List Char → List Char → List String
  | [], cur => [String.mk cur.reverse]
  | c :: cs, cur =>
    if c = ',' then String.mk cur.reverse :: splitAtCommaAux cs []
    else splitAtCommaAux cs (c :: cur)

/-- Split a string into its comma-separated components. -/
def splitAtComma (s : String) : List String := splitAtCommaAux s.data []

/-- Modelled from the spec: `utils.DescriptionFromString` (pkg/utils, not under src/)
decodes the owning workload identity from the opaque description text.  The opaque
encoding is modelled as comma-separated components whose head is the service name and
whose remaining components are feature markers. -/
def DescriptionFromString (s : String) : Description :=
  ⟨(splitAtComma s).headD ""⟩

/-- Modelled from the spec: `features.VersionFromDescription` (pkg/backends/features,
not under src/) "recovers the version a previously created resource actually requires
by decoding feature markers from its persisted description".  Markers are modelled as
recording the required track directly; with no non-stable marker the requirement is
the stable (GA) track, matching `versionFromFeatures(∅) == stable`. -/
def VersionFromDescription (s : String) : String :=
  let markers := splitAtComma s
  if markers.contains VersionAlpha then VersionAlpha
  else if markers.contains VersionBeta then VersionBeta
  else VersionGA

/-- `composite.BackendService` — canonical composite shape, the union of the three
wire schemas plus the controller-only `Version` marker (`meta.Version`, zero value
`""`).  The resource-specific fields are a representative selection: `Name`,
`Description`, `Port` exist at every version; `SecurityPolicy` from beta up;
`LocalityLbPolicy` only at alpha.  (The generated pkg/composite sources are not under
src/; the shape follows the `genTypes`/`genFuncs` templates of gen/main.go.) -/
structure CompositeBackendService where
  Version : String := ""
  Name : String := ""
  Description : String := ""
  Port : Int := 0
  SecurityPolicy : String := ""
  LocalityLbPolicy : String := ""
deriving DecidableEq, Repr

/-! ## pkg/backends/features/lbpolicy.go -/

/-- `backendconfig.TrafficManagementConfig`. -/
structure TrafficManagementConfig where
  LocalityLbPolicy : String := ""
deriving DecidableEq, Repr

/-- `backendconfig.BackendConfigSpec`; the `TrafficManagement` field is a Go pointer,
embedded as `Option`. -/
structure BackendConfigSpec where
  TrafficManagement : Option TrafficManagementConfig := none
deriving DecidableEq, Repr

/-- `backendconfig.BackendConfig`. -/
structure BackendConfig where
  Spec : BackendConfigSpec := {}
deriving DecidableEq, Repr

/-- `utils.ServicePort`, restricted to the field read by lbpolicy.go.  The
`BackendConfig` field is a Go pointer, embedded as `Option`. -/
structure ServicePort where
  BackendConfig : Option BackendConfig := none
deriving DecidableEq, Repr

/-- `applyLocalityLbPolicy(sp, be)` — writes the configured policy through to the
backend service.  The Go code dereferences `sp.BackendConfig.Spec.TrafficManagement`
unguarded; a nil pointer on that path is a runtime panic, embedded as `none`. -/
def applyLocalityLbPolicy (sp : ServicePort) (be : CompositeBackendService) :
    Option CompositeBackendService :=
  match sp.BackendConfig with
  | none => none
  | some bc =>
    match bc.Spec.TrafficManagement with
    | none => none
    | some tm => some { be with LocalityLbPolicy := tm.LocalityLbPolicy }

/-- `EnsureLocalityLbPolicy(sp, be)` — returns whether the backend service was
mutated, together with the (possibly updated) backend service.  `none` embeds the Go
nil-pointer panic that occurs when `sp.BackendConfig` is nil (the guard reads
`sp.BackendConfig.Spec.TrafficManagement` before any nil check on `BackendConfig`). -/
def EnsureLocalityLbPolicy (sp : ServicePort) (be : CompositeBackendService) :
    Option (Bool × CompositeBackendService) :=
  match sp.BackendConfig with
  | none => none
  | some bc =>
    match bc.Spec.TrafficManagement with
    | none => some (false, be)
    | some tm =>
      if tm.LocalityLbPolicy = "" then some (false, be)
      else if be.LocalityLbPolicy ≠ tm.LocalityLbPolicy then
        match applyLocalityLbPolicy sp be with
        | none => none
        | some be2 => some (true, be2)
      else some (false, be)

/-! ## Theorems for C9 and C10 -/

/-- C9: with a non-nil backend config, `EnsureLocalityLbPolicy` returns `false` and
leaves the backend service unmodified when no locality policy is configured (nil
traffic management or empty string) or when the backend service already carries the
configured policy; otherwise it sets `LocalityLbPolicy` to the configured policy and
returns `true`. -/
theorem ensureLocalityLbPolicy_spec (sp : ServicePort) (bc : BackendConfig)
    (be : CompositeBackendService) (hbc : sp.BackendConfig = some bc) :
    (bc.Spec.TrafficManagement = none →
      EnsureLocalityLbPolicy sp be = some (false, be)) ∧
    (∀ tm, bc.Spec.TrafficManagement = some tm →
      (tm.LocalityLbPolicy = "" →
        EnsureLocalityLbPolicy sp be = some (false, be)) ∧
      (tm.LocalityLbPolicy ≠ "" → be.LocalityLbPolicy = tm.LocalityLbPolicy →
        EnsureLocalityLbPolicy sp be = some (false, be)) ∧
      (tm.LocalityLbPolicy ≠ "" → be.LocalityLbPolicy ≠ tm.LocalityLbPolicy →
        EnsureLocalityLbPolicy sp be =
          some (true, { be with LocalityLbPolicy := tm.LocalityLbPolicy }))) := by
  refine ⟨fun htm => ?_, fun tm htm => ⟨fun hemp => ?_, fun hne heq => ?_, fun hne hdiff => ?_⟩⟩
  · simp [EnsureLocalityLbPolicy, hbc, htm]
  · simp [EnsureLocalityLbPolicy, hbc, htm, hemp]
  · simp [EnsureLocalityLbPolicy, hbc, htm, hne, heq]
  · simp [EnsureLocalityLbPolicy, applyLocalityLbPolicy, hbc, htm, hne, hdiff]

/-- A backend config configuring the locality policy "ROUND_ROBIN" (the claim's
example input). -/
def roundRobinConfig : BackendConfig :=
  { Spec := { TrafficManagement := some { LocalityLbPolicy := "ROUND_ROBIN" } } }

/-- A service port carrying `roundRobinConfig`. -/
def roundRobinPort : ServicePort := { BackendConfig := some roundRobinConfig }

/-- Witness for C9: the claim's own example — configured policy "ROUND_ROBIN" against
a backend service carrying "MAGLEV" returns `true` and rewrites the field. -/
theorem ensureLocalityLbPolicy_spec_witness :
    EnsureLocalityLbPolicy roundRobinPort { LocalityLbPolicy := "MAGLEV" } =
      some (true, { LocalityLbPolicy := "ROUND_ROBIN" }) := by
  have h := ensureLocalityLbPolicy_spec roundRobinPort roundRobinConfig
    { LocalityLbPolicy := "MAGLEV" } rfl
  exact (h.2 { LocalityLbPolicy := "ROUND_ROBIN" } rfl).2.2 (by decide) (by decide)

/-- C10: `EnsureLocalityLbPolicy` is defined (does not panic) exactly on service
ports whose `BackendConfig` pointer is non-nil: the nil guard starts at
`Spec.TrafficManagement`, so a nil `BackendConfig` is dereferenced. -/
theorem ensureLocalityLbPolicy_total_iff_backendConfig (sp : ServicePort)
    (be : CompositeBackendService) :
    (EnsureLocalityLbPolicy sp be).isSome = sp.BackendConfig.isSome := by
  cases hbc : sp.BackendConfig with
  | none => simp [EnsureLocalityLbPolicy, hbc]
  | some bc =>
    cases htm : bc.Spec.TrafficManagement with
    | none => simp [EnsureLocalityLbPolicy, hbc, htm]
    | some tm =>
      by_cases hemp : tm.LocalityLbPolicy = ""
      · simp [EnsureLocalityLbPolicy, hbc, htm, hemp]
      · by_cases hdiff : be.LocalityLbPolicy = tm.LocalityLbPolicy
        · simp [EnsureLocalityLbPolicy, hbc, htm, hemp, hdiff]
        · simp [EnsureLocalityLbPolicy, applyLocalityLbPolicy, hbc, htm, hemp, hdiff]

/-! ## The fuzz/whitebox GCLB model (package fuzz)

Wire objects carry only the fields the code under verification reads.  Reference
URLs (`Target`, `UrlMap`, `DefaultService`, `Service`, `Group`) are consumed through
the external parser `cloud.ParseResourceURL`; a reference is embedded as the parser's
outcome: `none` for an unparseable URL, `some ⟨resource, key⟩` otherwise. -/

/-- `cloud.ResourceID` — the parsed form of a resource URL: the resource-type path
segment (e.g. "targetHttpProxies") and the key. -/
structure ResourceID where
  resource : String
  key : Key
deriving DecidableEq, Repr

/-- Outcome of a cloud Get/List call: success, or a `googleapi.Error` with an HTTP
status code ("not found" is code 404). -/
inductive GetResult (α : Type) where
  | ok (v : α)
  | err (code : Nat) (msg : String)
deriving DecidableEq, Repr

/-- Whether the call succeeded (the resource is present). -/
def GetResult.isPresent {α : Type} : GetResult α → Bool
  | .ok _ => true
  | .err _ _ => false

/-- Whether the call failed with a status other than 404 — the condition
`err.(*googleapi.Error) == nil || err.(*googleapi.Error).Code != http.StatusNotFound`
under which `CheckResourceDeletion` reports a failure for this resource. -/
def GetResult.isHardError {α : Type} : GetResult α → Bool
  | .ok _ => false
  | .err code _ => code ≠ 404

/-- Propagate a call result into `Except`, as `if err != nil { return nil, err }`. -/
def GetResult.toExcept {α : Type} : GetResult α → Except String α
  | .ok v => .ok v
  | .err _ msg => .error msg

/-- `compute.ForwardingRule` (GA), fields read: `Name`, `IPAddress`, `Target`. -/
structure GAForwardingRule where
  name : String
  ipAddress : String
  target : Option ResourceID
deriving DecidableEq, Repr

/-- `compute.TargetHttpProxy` (GA), field read: `UrlMap`. -/
structure GATargetHttpProxy where
  urlMap : Option ResourceID
deriving DecidableEq, Repr

/-- `compute.TargetHttpsProxy` (GA), field read: `UrlMap`. -/
structure GATargetHttpsProxy where
  urlMap : Option ResourceID
deriving DecidableEq, Repr

/-- A `Backends[].Group` reference: the raw URL (tested by substring for the
resource-type segment) together with its parsed form. -/
structure GroupRef where
  url : String
  parsed : Option ResourceID
deriving DecidableEq, Repr

/-- `compute.PathRule` (GA), field read: `Service`. -/
structure GAPathRule where
  service : Option ResourceID
deriving DecidableEq, Repr

/-- `compute.PathMatcher` (GA), fields read: `DefaultService`, `PathRules`. -/
structure GAPathMatcher where
  defaultService : Option ResourceID
  pathRules : List GAPathRule
deriving DecidableEq, Repr

/-- `compute.UrlMap` (GA), fields read: `DefaultService`, `PathMatchers`. -/
structure GAUrlMap where
  defaultService : Option ResourceID
  pathMatchers : List GAPathMatcher
deriving DecidableEq, Repr

/-- `compute.BackendService` wire object, fields read by the fuzz framework:
`Description` (deletion check) and `Backends[].Group` (NEG/IG discovery). -/
structure GABackendServiceWire where
  description : String := ""
  backends : List GroupRef := []
deriving DecidableEq, Repr

/-- The `cloud.Cloud` collaborator, one Get (or List) endpoint per service and
version used by the code under verification. -/
structure Cloud where
  listGlobalForwardingRules : GetResult (List GAForwardingRule)
  globalForwardingRulesGet : Key → GetResult GAForwardingRule
  forwardingRulesGet : Key → GetResult GAForwardingRule
  alphaForwardingRulesGet : Key → GetResult GAForwardingRule
  targetHttpProxies : Key → GetResult GATargetHttpProxy
  targetHttpsProxies : Key → GetResult GATargetHttpsProxy
  urlMaps : Key → GetResult GAUrlMap
  backendServices : Key → GetResult GABackendServiceWire
  alphaBackendServices : Key → GetResult GABackendServiceWire
  betaBackendServices : Key → GetResult GABackendServiceWire
  networkEndpointGroups : Key → GetResult Unit
  alphaNetworkEndpointGroups : Key → GetResult Unit
  betaNetworkEndpointGroups : Key → GetResult Unit
  instanceGroups : Key → GetResult Unit

/-- `ForwardingRule` — union of the API version types (only GA and Alpha are ever
populated by this code). -/
structure ForwardingRuleU where
  GA : Option GAForwardingRule := none
  Alpha : Option GAForwardingRule := none
deriving DecidableEq, Repr

/-- `BackendService` — union of the API version types. -/
structure BackendServiceU where
  GA : Option GABackendServiceWire := none
  Alpha : Option GABackendServiceWire := none
  Beta : Option GABackendServiceWire := none
deriving DecidableEq, Repr

/-- `NetworkEndpointGroup` — union of the API version types. -/
structure NetworkEndpointGroupU where
  GA : Option Unit := none
  Alpha : Option Unit := none
  Beta : Option Unit := none
deriving DecidableEq, Repr

/-- Insert-or-replace into an association list, embedding assignment into a Go map
keyed by `meta.Key`. -/
def mapInsert {α : Type} (m : List (Key × α)) (k : Key) (v : α) : List (Key × α) :=
  if m.any (fun p => p.1 = k) then m.map (fun p => if p.1 = k then (k, v) else p)
  else m ++ [(k, v)]

/-- Update the entry at `k` (no-op when absent), embedding
`m[k].Field = v` on an existing map entry. -/
def mapUpdate {α : Type} (m : List (Key × α)) (k : Key) (f : α → α) : List (Key × α) :=
  m.map (fun p => if p.1 = k then (p.1, f p.2) else p)

/-- `GCLB` — the resources for a load balancer, maps keyed by `meta.Key`. -/
structure GCLB where
  vip : String
  forwardingRule : List (Key × ForwardingRuleU) := []
  targetHTTPProxy : List (Key × GATargetHttpProxy) := []
  targetHTTPSProxy : List (Key × GATargetHttpsProxy) := []
  urlMap : List (Key × GAUrlMap) := []
  backendService : List (Key × BackendServiceU) := []
  networkEndpointGroup : List (Key × NetworkEndpointGroupU) := []
  instanceGroup : List (Key × Unit) := []
deriving DecidableEq, Repr

/-- `NewGCLB(vip)` — the empty graph rooted at `vip`. -/
def NewGCLB (vip : String) : GCLB := { vip := vip }

/-- `GCLBDeleteOptions`. -/
structure GCLBDeleteOptions where
  SkipDefaultBackend : Bool
deriving DecidableEq, Repr

/-- The error of `CheckResourceDeletion`: either the early return
`fmt.Errorf("<kind> %s is not deleted/error to get: %s", k.Name, err)` for a single
resource, or the aggregated `fmt.Errorf("resources still exist (%s)", ...)`. -/
inductive DeletionError where
  | notDeleted (kind : String) (name : String) (msg : String)
  | resourcesExist (keys : List Key)
deriving DecidableEq, Repr

/-- One `for k := range …` loop of `CheckResourceDeletion` for a resource category
without special-casing: a 404 confirms deletion, any other error returns immediately,
a successful Get appends the key to the still-present accumulator. -/
def checkCategory {α : Type} (kind : String) (get : Key → GetResult α) :
    List Key → List Key → Except DeletionError (List Key)
  | [], resources => .ok resources
  | k :: ks, resources =>
    match get k with
    | .ok _ => checkCategory kind get ks (resources ++ [k])
    | .err code msg =>
      if code ≠ 404 then .error (.notDeleted kind k.name msg)
      else checkCategory kind get ks resources

/-- The `BackendService` loop of `CheckResourceDeletion`: as `checkCategory`, except
that with `options.SkipDefaultBackend` set, a still-present backend service whose
description names the service "kube-system/default-http-backend" is skipped. -/
def checkBackendServiceCategory (c : Cloud) (options : Option GCLBDeleteOptions) :
    List Key → List Key → Except DeletionError (List Key)
  | [], resources => .ok resources
  | k :: ks, resources =>
    match c.backendServices k with
    | .ok bs =>
      if (match options with
          | some o => o.SkipDefaultBackend
          | none => false) &&
          (DescriptionFromString bs.description).ServiceName =
            "kube-system/default-http-backend"
      then checkBackendServiceCategory c options ks resources
      else checkBackendServiceCategory c options ks (resources ++ [k])
    | .err code msg =>
      if code ≠ 404 then .error (.notDeleted "BackendService" k.name msg)
      else checkBackendServiceCategory c options ks resources

/-- The forwarding-rule Get of `CheckResourceDeletion`, dispatched on the recorded
scope: a key with a region uses the regional endpoint, otherwise the global one. -/
def forwardingRuleGetAtScope (c : Cloud) (k : Key) : GetResult GAForwardingRule :=
  if k.region ≠ "" then c.forwardingRulesGet k else c.globalForwardingRulesGet k

/-- `(*GCLB).CheckResourceDeletion(ctx, c, options)` — checks the existence of the
resources recorded in the graph; returns `.ok ()` iff every checked resource is gone.
Note the source iterates the forwarding-rule, target-proxy, URL-map, backend-service
and NEG maps, but not the instance-group map. -/
def CheckResourceDeletion (g : GCLB) (c : Cloud) (options : Option GCLBDeleteOptions) :
    Except DeletionError Unit := do
  let resources : List Key := []
  let resources ← checkCategory "ForwardingRule" (forwardingRuleGetAtScope c)
    (g.forwardingRule.map Prod.fst) resources
  let resources ← checkCategory "TargetHTTPProxy" c.targetHttpProxies
    (g.targetHTTPProxy.map Prod.fst) resources
  let resources ← checkCategory "TargetHTTPSProxy" c.targetHttpsProxies
    (g.targetHTTPSProxy.map Prod.fst) resources
  let resources ← checkCategory "URLMap" c.urlMaps
    (g.urlMap.map Prod.fst) resources
  let resources ← checkBackendServiceCategory c options
    (g.backendService.map Prod.fst) resources
  let resources ← checkCategory "NetworkEndpointGroup" c.betaNetworkEndpointGroups
    (g.networkEndpointGroup.map Prod.fst) resources
  if resources ≠ [] then .error (.resourcesExist resources) else .ok ()

/-! ## Helper lemmas for the deletion verifier -/

/-- Whether a call failed precisely with "not found". -/
def GetResult.isNotFound {α : Type} : GetResult α → Bool
  | .ok _ => false
  | .err code _ => code = 404

/-- The `options != nil && options.SkipDefaultBackend` guard. -/
def effectiveSkipDefault (options : Option GCLBDeleteOptions) : Bool :=
  match options with
  | some o => o.SkipDefaultBackend
  | none => false

/-- Whether a backend-service key ends up in the still-present set: its Get must
succeed, and it must not be skipped as the shared default backend. -/
def backendServiceStillCounts (c : Cloud) (options : Option GCLBDeleteOptions)
    (k : Key) : Bool :=
  match c.backendServices k with
  | .ok bs =>
    !(effectiveSkipDefault options &&
      ((DescriptionFromString bs.description).ServiceName =
        "kube-system/default-http-backend" : Bool))
  | .err _ _ => false

theorem okBind {ε α β : Type} (a : α) (f : α → Except ε β) :
    (Except.ok a >>= f : Except ε β) = f a := rfl

theorem GetResult.not_hard_of_notFound {α : Type} {r : GetResult α}
    (h : r.isNotFound = true) : r.isHardError = false ∧ r.isPresent = false := by
  cases r with
  | ok v => simp [GetResult.isNotFound] at h
  | err code msg =>
    simp [GetResult.isNotFound] at h
    simp [GetResult.isHardError, GetResult.isPresent, h]

/-- Without hard errors, a category loop collects exactly the keys whose Get
succeeded, appended to the incoming accumulator. -/
theorem checkCategory_no_hard {α : Type} (kind : String) (get : Key → GetResult α)
    (keys : List Key) (h : ∀ k ∈ keys, (get k).isHardError = false) :
    ∀ acc, checkCategory kind get keys acc =
      .ok (acc ++ keys.filter (fun k => (get k).isPresent)) := by
  induction keys with
  | nil => intro acc; simp [checkCategory]
  | cons a l ih =>
    intro acc
    have ha := h a (by simp)
    have hl : ∀ k ∈ l, (get k).isHardError = false := fun k hk => h k (by simp [hk])
    cases hg : get a with
    | ok v =>
      simp only [checkCategory, hg]
      rw [ih hl]
      simp [List.filter_cons, hg, GetResult.isPresent]
    | err code msg =>
      rw [hg] at ha
      simp [GetResult.isHardError] at ha
      simp only [checkCategory, hg]
      rw [if_neg (by simp [ha]), ih hl]
      simp [List.filter_cons, hg, GetResult.isPresent]

/-- Without hard errors, the backend-service loop collects exactly the keys that
`backendServiceStillCounts`, appended to the incoming accumulator. -/
theorem checkBackendServiceCategory_no_hard (c : Cloud)
    (options : Option GCLBDeleteOptions) (keys : List Key)
    (h : ∀ k ∈ keys, (c.backendServices k).isHardError = false) :
    ∀ acc, checkBackendServiceCategory c options keys acc =
      .ok (acc ++ keys.filter (backendServiceStillCounts c options)) := by
  induction keys with
  | nil => intro acc; simp [checkBackendServiceCategory]
  | cons a l ih =>
    intro acc
    have ha := h a (by simp)
    have hl : ∀ k ∈ l, (c.backendServices k).isHardError = false :=
      fun k hk => h k (by simp [hk])
    cases hg : c.backendServices a with
    | ok bs =>
      by_cases hskip : (effectiveSkipDefault options &&
          ((DescriptionFromString bs.description).ServiceName =
            "kube-system/default-http-backend" : Bool)) = true
      · have hcount : backendServiceStillCounts c options a = false := by
          simp [backendServiceStillCounts, hg, hskip]
        simp only [checkBackendServiceCategory, hg]
        rw [if_pos (by cases options <;> simpa [effectiveSkipDefault] using hskip), ih hl]
        simp [List.filter_cons, hcount]
      · have hcount : backendServiceStillCounts c options a = true := by
          simp only [backendServiceStillCounts, hg]
          simp [hskip]
        simp only [checkBackendServiceCategory, hg]
        rw [if_neg (by cases options <;> simpa [effectiveSkipDefault] using hskip), ih hl]
        simp [List.filter_cons, hcount]
    | err code msg =>
      rw [hg] at ha
      simp [GetResult.isHardError] at ha
      have hcount : backendServiceStillCounts c options a = false := by
        simp [backendServiceStillCounts, hg]
      simp only [checkBackendServiceCategory, hg]
      rw [if_neg (by simp [ha]), ih hl]
      simp [List.filter_cons, hcount]

/-- The still-present keys of a graph, category by category, in the scan order of
`CheckResourceDeletion`. -/
def stillPresentKeys (g : GCLB) (c : Cloud) (options : Option GCLBDeleteOptions) :
    List Key :=
  (g.forwardingRule.map Prod.fst).filter
      (fun k => (forwardingRuleGetAtScope c k).isPresent) ++
    (g.targetHTTPProxy.map Prod.fst).filter (fun k => (c.targetHttpProxies k).isPresent) ++
    (g.targetHTTPSProxy.map Prod.fst).filter (fun k => (c.targetHttpsProxies k).isPresent) ++
    (g.urlMap.map Prod.fst).filter (fun k => (c.urlMaps k).isPresent) ++
    (g.backendService.map Prod.fst).filter (backendServiceStillCounts c options) ++
    (g.networkEndpointGroup.map Prod.fst).filter
      (fun k => (c.betaNetworkEndpointGroups k).isPresent)

/-- No Get issued by `CheckResourceDeletion` over this graph fails with a status
other than 404. -/
def noHardErrors (g : GCLB) (c : Cloud) : Prop :=
  (∀ k ∈ g.forwardingRule.map Prod.fst, (forwardingRuleGetAtScope c k).isHardError = false) ∧
  (∀ k ∈ g.targetHTTPProxy.map Prod.fst, (c.targetHttpProxies k).isHardError = false) ∧
  (∀ k ∈ g.targetHTTPSProxy.map Prod.fst, (c.targetHttpsProxies k).isHardError = false) ∧
  (∀ k ∈ g.urlMap.map Prod.fst, (c.urlMaps k).isHardError = false) ∧
  (∀ k ∈ g.backendService.map Prod.fst, (c.backendServices k).isHardError = false) ∧
  (∀ k ∈ g.networkEndpointGroup.map Prod.fst,
    (c.betaNetworkEndpointGroups k).isHardError = false)

/-! ## Theorems for C2, C3 and C4 -/

/-- C2 (amended): without hard Get errors, `CheckResourceDeletion` aggregates every
still-present resource of the checked categories into one combined
"resources still exist" report, and succeeds iff that set is empty.  (The fail-fast
half of the original claim is refuted by
`checkResourceDeletion_failFast_counterexample`.) -/
theorem checkResourceDeletion_aggregates (g : GCLB) (c : Cloud)
    (options : Option GCLBDeleteOptions) (h : noHardErrors g c) :
    CheckResourceDeletion g c options =
      if stillPresentKeys g c options = [] then .ok ()
      else .error (.resourcesExist (stillPresentKeys g c options)) := by
  obtain ⟨h1, h2, h3, h4, h5, h6⟩ := h
  unfold CheckResourceDeletion
  dsimp only
  rw [checkCategory_no_hard _ _ _ h1 [], okBind,
    checkCategory_no_hard _ _ _ h2 _, okBind,
    checkCategory_no_hard _ _ _ h3 _, okBind,
    checkCategory_no_hard _ _ _ h4 _, okBind,
    checkBackendServiceCategory_no_hard _ _ _ h5 _, okBind,
    checkCategory_no_hard _ _ _ h6 _, okBind]
  simp only [List.nil_append, List.append_assoc]
  rcases eq_or_ne (stillPresentKeys g c options) [] with he | he
  · rw [if_pos he]
    rw [stillPresentKeys, List.append_assoc, List.append_assoc, List.append_assoc,
      List.append_assoc] at he
    simp [he]
  · rw [if_neg he]
    rw [stillPresentKeys, List.append_assoc, List.append_assoc, List.append_assoc,
      List.append_assoc] at he ⊢
    simp [he]

/-- A cloud in which every Get and List returns 404; base state for the concrete
scenarios below. -/
def cloud404 : Cloud where
  listGlobalForwardingRules := .err 404 "not found"
  globalForwardingRulesGet := fun _ => .err 404 "not found"
  forwardingRulesGet := fun _ => .err 404 "not found"
  alphaForwardingRulesGet := fun _ => .err 404 "not found"
  targetHttpProxies := fun _ => .err 404 "not found"
  targetHttpsProxies := fun _ => .err 404 "not found"
  urlMaps := fun _ => .err 404 "not found"
  backendServices := fun _ => .err 404 "not found"
  alphaBackendServices := fun _ => .err 404 "not found"
  betaBackendServices := fun _ => .err 404 "not found"
  networkEndpointGroups := fun _ => .err 404 "not found"
  alphaNetworkEndpointGroups := fun _ => .err 404 "not found"
  betaNetworkEndpointGroups := fun _ => .err 404 "not found"
  instanceGroups := fun _ => .err 404 "not found"

/-- A cloud where the global forwarding-rule Get fails hard (HTTP 500) while the URL
map is still present. -/
def failFastCloud : Cloud :=
  { cloud404 with
    globalForwardingRulesGet := fun _ => .err 500 "backend error"
    urlMaps := fun _ => .ok { defaultService := none, pathMatchers := [] } }

/-- A graph recording one global forwarding rule and one URL map. -/
def failFastGraph : GCLB :=
  { vip := "203.0.113.1"
    forwardingRule := [(GlobalKey "fr1", { GA := none })]
    urlMap := [(GlobalKey "um1", { defaultService := none, pathMatchers := [] })] }

/-- Counterexample to C2: with a non-404 Get error on the forwarding rule and a URL
map still present, `CheckResourceDeletion` returns the single-resource error for the
forwarding rule immediately — the still-present URL map never appears in any
combined report, so the caller does not see the complete remaining set. -/
theorem checkResourceDeletion_failFast_counterexample :
    CheckResourceDeletion failFastGraph failFastCloud none =
      .error (.notDeleted "ForwardingRule" "fr1" "backend error") ∧
    (failFastCloud.urlMaps (GlobalKey "um1")).isPresent = true :=
  ⟨rfl, rfl⟩

/-- A still-present URL map, with everything else 404, for the C2 witness. -/
def umPresentCloud : Cloud :=
  { cloud404 with urlMaps := fun _ => .ok { defaultService := none, pathMatchers := [] } }

/-- A graph recording one forwarding rule (deleted) and one URL map (present). -/
def umPresentGraph : GCLB :=
  { vip := "203.0.113.1"
    forwardingRule := [(GlobalKey "fr1", { GA := none })]
    urlMap := [(GlobalKey "um1", { defaultService := none, pathMatchers := [] })] }

/-- Witness for the amended C2 at a concrete input: no hard errors, one still-present
URL map, and the result is the aggregated report naming exactly it. -/
theorem checkResourceDeletion_aggregates_witness :
    noHardErrors umPresentGraph umPresentCloud ∧
    CheckResourceDeletion umPresentGraph umPresentCloud none =
      .error (.resourcesExist [GlobalKey "um1"]) := by
  have hnh : noHardErrors umPresentGraph umPresentCloud := by
    refine ⟨?_, ?_, ?_, ?_, ?_, ?_⟩ <;> decide
  refine ⟨hnh, ?_⟩
  rw [checkResourceDeletion_aggregates umPresentGraph umPresentCloud none hnh]
  rfl

/-- Every Get issued by `CheckResourceDeletion` over this graph returns 404. -/
def allNotFound (g : GCLB) (c : Cloud) : Prop :=
  (∀ k ∈ g.forwardingRule.map Prod.fst, (forwardingRuleGetAtScope c k).isNotFound = true) ∧
  (∀ k ∈ g.targetHTTPProxy.map Prod.fst, (c.targetHttpProxies k).isNotFound = true) ∧
  (∀ k ∈ g.targetHTTPSProxy.map Prod.fst, (c.targetHttpsProxies k).isNotFound = true) ∧
  (∀ k ∈ g.urlMap.map Prod.fst, (c.urlMaps k).isNotFound = true) ∧
  (∀ k ∈ g.backendService.map Prod.fst, (c.backendServices k).isNotFound = true) ∧
  (∀ k ∈ g.networkEndpointGroup.map Prod.fst,
    (c.betaNetworkEndpointGroups k).isNotFound = true)

/-- A graph recording only one instance group. -/
def igOnlyGraph : GCLB :=
  { vip := "203.0.113.2", instanceGroup := [(ZonalKey "ig1" "us-central1-a", ())] }

/-- A cloud in which the instance group still exists while everything else is 404. -/
def igPresentCloud : Cloud := { cloud404 with instanceGroups := fun _ => .ok () }

/-- Counterexample to C3: the graph records an instance-group key whose resource
still exists, yet `CheckResourceDeletion` succeeds — no Get is ever issued for
instance groups, so a still-present instance group is not detected. -/
theorem checkResourceDeletion_instanceGroup_counterexample :
    CheckResourceDeletion igOnlyGraph igPresentCloud none = .ok () ∧
    (igPresentCloud.instanceGroups (ZonalKey "ig1" "us-central1-a")).isPresent = true :=
  ⟨rfl, rfl⟩

/-- C3 (amended): `CheckResourceDeletion` issues Gets for the forwarding-rule,
target-HTTP-proxy, target-HTTPS-proxy, URL-map, backend-service and NEG keys of the
graph — forwarding rules at their recorded scope — and treats 404 as confirmation of
deletion; the recorded instance-group keys are never checked, so the result is
independent of them. -/
theorem checkResourceDeletion_checked_kinds :
    (∀ (g : GCLB) (c : Cloud) (options : Option GCLBDeleteOptions)
        (igs : List (Key × Unit)),
      CheckResourceDeletion { g with instanceGroup := igs } c options =
        CheckResourceDeletion g c options) ∧
    (∀ (g : GCLB) (c : Cloud) (options : Option GCLBDeleteOptions), allNotFound g c →
      CheckResourceDeletion g c options = .ok ()) := by
  constructor
  · intro g c options igs
    rfl
  · intro g c options h
    obtain ⟨h1, h2, h3, h4, h5, h6⟩ := h
    unfold CheckResourceDeletion
    dsimp only
    rw [checkCategory_no_hard _ _ _
        (fun k hk => (GetResult.not_hard_of_notFound (h1 k hk)).1) [], okBind,
      checkCategory_no_hard _ _ _
        (fun k hk => (GetResult.not_hard_of_notFound (h2 k hk)).1) _, okBind,
      checkCategory_no_hard _ _ _
        (fun k hk => (GetResult.not_hard_of_notFound (h3 k hk)).1) _, okBind,
      checkCategory_no_hard _ _ _
        (fun k hk => (GetResult.not_hard_of_notFound (h4 k hk)).1) _, okBind,
      checkBackendServiceCategory_no_hard _ _ _
        (fun k hk => (GetResult.not_hard_of_notFound (h5 k hk)).1) _, okBind,
      checkCategory_no_hard _ _ _
        (fun k hk => (GetResult.not_hard_of_notFound (h6 k hk)).1) _, okBind]
    have e1 : (g.forwardingRule.map Prod.fst).filter
        (fun k => (forwardingRuleGetAtScope c k).isPresent) = [] :=
      List.filter_eq_nil_iff.2 fun k hk => by
        simp [(GetResult.not_hard_of_notFound (h1 k hk)).2]
    have e2 : (g.targetHTTPProxy.map Prod.fst).filter
        (fun k => (c.targetHttpProxies k).isPresent) = [] :=
      List.filter_eq_nil_iff.2 fun k hk => by
        simp [(GetResult.not_hard_of_notFound (h2 k hk)).2]
    have e3 : (g.targetHTTPSProxy.map Prod.fst).filter
        (fun k => (c.targetHttpsProxies k).isPresent) = [] :=
      List.filter_eq_nil_iff.2 fun k hk => by
        simp [(GetResult.not_hard_of_notFound (h3 k hk)).2]
    have e4 : (g.urlMap.map Prod.fst).filter (fun k => (c.urlMaps k).isPresent) = [] :=
      List.filter_eq_nil_iff.2 fun k hk => by
        simp [(GetResult.not_hard_of_notFound (h4 k hk)).2]
    have e5 : (g.backendService.map Prod.fst).filter
        (backendServiceStillCounts c options) = [] :=
      List.filter_eq_nil_iff.2 fun k hk => by
        have := h5 k hk
        cases hbs : c.backendServices k with
        | ok bs => rw [hbs] at this; simp [GetResult.isNotFound] at this
        | err code msg => simp [backendServiceStillCounts, hbs]
    have e6 : (g.networkEndpointGroup.map Prod.fst).filter
        (fun k => (c.betaNetworkEndpointGroups k).isPresent) = [] :=
      List.filter_eq_nil_iff.2 fun k hk => by
        simp [(GetResult.not_hard_of_notFound (h6 k hk)).2]
    simp [e1, e2, e3, e4, e5, e6]

/-- Witness for the amended C3 at a concrete input: the result is unchanged when the
instance-group entries are dropped, and an all-404 graph checks out deleted. -/
theorem checkResourceDeletion_checked_kinds_witness :
    CheckResourceDeletion { igOnlyGraph with instanceGroup := [] } igPresentCloud none =
      CheckResourceDeletion igOnlyGraph igPresentCloud none ∧
    CheckResourceDeletion failFastGraph cloud404 none = .ok () := by
  constructor
  · have h := checkResourceDeletion_checked_kinds.1 igOnlyGraph igPresentCloud none []
    exact h
  · exact checkResourceDeletion_checked_kinds.2 failFastGraph cloud404 none
      (by refine ⟨?_, ?_, ?_, ?_, ?_, ?_⟩ <;> decide)

/-- In a duplicate-free list containing `k`, a predicate holding exactly at `k`
filters to the singleton `[k]`. -/
theorem filter_eq_single {α : Type} {l : List α} {p : α → Bool} {k : α}
    (hnd : l.Nodup) (hk : k ∈ l) (hp : ∀ x ∈ l, p x = true ↔ x = k) :
    l.filter p = [k] := by
  induction l with
  | nil => cases hk
  | cons a l ih =>
    obtain ⟨hal, hl⟩ := List.nodup_cons.1 hnd
    rcases List.mem_cons.1 hk with heq | hk2
    · subst heq
      have hpa : p k = true := (hp k (by simp)).2 rfl
      have hrest : l.filter p = [] :=
        List.filter_eq_nil_iff.2 fun x hx hpx => hal (((hp x (by simp [hx])).1 hpx) ▸ hx)
      simp [List.filter_cons, hpa, hrest]
    · have hpa : p a = false := by
        cases ht : p a with
        | false => rfl
        | true => exact absurd (((hp a (by simp)).1 ht) ▸ hk2) hal
      have := ih hl hk2 fun x hx => hp x (by simp [hx])
      simp [List.filter_cons, hpa, this]

/-- C4: in a graph where every checked resource 404s except one still-present
backend service whose description names the cluster's shared default backend,
`CheckResourceDeletion` succeeds with `SkipDefaultBackend = true` and fails with the
aggregated report naming exactly that backend service with `SkipDefaultBackend =
false` or nil options. -/
theorem checkResourceDeletion_skipDefaultBackend (g : GCLB) (c : Cloud) (k : Key)
    (bs : GABackendServiceWire)
    (h1 : ∀ j ∈ g.forwardingRule.map Prod.fst, (forwardingRuleGetAtScope c j).isNotFound = true)
    (h2 : ∀ j ∈ g.targetHTTPProxy.map Prod.fst, (c.targetHttpProxies j).isNotFound = true)
    (h3 : ∀ j ∈ g.targetHTTPSProxy.map Prod.fst, (c.targetHttpsProxies j).isNotFound = true)
    (h4 : ∀ j ∈ g.urlMap.map Prod.fst, (c.urlMaps j).isNotFound = true)
    (h6 : ∀ j ∈ g.networkEndpointGroup.map Prod.fst,
      (c.betaNetworkEndpointGroups j).isNotFound = true)
    (hk : k ∈ g.backendService.map Prod.fst)
    (hnd : (g.backendService.map Prod.fst).Nodup)
    (hbs : c.backendServices k = .ok bs)
    (hother : ∀ j ∈ g.backendService.map Prod.fst, j ≠ k →
      (c.backendServices j).isNotFound = true)
    (hdesc : (DescriptionFromString bs.description).ServiceName =
      "kube-system/default-http-backend") :
    CheckResourceDeletion g c (some ⟨true⟩) = .ok () ∧
    CheckResourceDeletion g c (some ⟨false⟩) = .error (.resourcesExist [k]) ∧
    CheckResourceDeletion g c none = .error (.resourcesExist [k]) := by
  have hbsHard : ∀ j ∈ g.backendService.map Prod.fst,
      (c.backendServices j).isHardError = false := by
    intro j hj
    by_cases hjk : j = k
    · subst hjk; simp [hbs, GetResult.isHardError]
    · exact (GetResult.not_hard_of_notFound (hother j hj hjk)).1
  have hnh : noHardErrors g c :=
    ⟨fun j hj => (GetResult.not_hard_of_notFound (h1 j hj)).1,
     fun j hj => (GetResult.not_hard_of_notFound (h2 j hj)).1,
     fun j hj => (GetResult.not_hard_of_notFound (h3 j hj)).1,
     fun j hj => (GetResult.not_hard_of_notFound (h4 j hj)).1,
     hbsHard,
     fun j hj => (GetResult.not_hard_of_notFound (h6 j hj)).1⟩
  have e1 : (g.forwardingRule.map Prod.fst).filter
      (fun j => (forwardingRuleGetAtScope c j).isPresent) = [] :=
    List.filter_eq_nil_iff.2 fun j hj => by
      simp [(GetResult.not_hard_of_notFound (h1 j hj)).2]
  have e2 : (g.targetHTTPProxy.map Prod.fst).filter
      (fun j => (c.targetHttpProxies j).isPresent) = [] :=
    List.filter_eq_nil_iff.2 fun j hj => by
      simp [(GetResult.not_hard_of_notFound (h2 j hj)).2]
  have e3 : (g.targetHTTPSProxy.map Prod.fst).filter
      (fun j => (c.targetHttpsProxies j).isPresent) = [] :=
    List.filter_eq_nil_iff.2 fun j hj => by
      simp [(GetResult.not_hard_of_notFound (h3 j hj)).2]
  have e4 : (g.urlMap.map Prod.fst).filter (fun j => (c.urlMaps j).isPresent) = [] :=
    List.filter_eq_nil_iff.2 fun j hj => by
      simp [(GetResult.not_hard_of_notFound (h4 j hj)).2]
  have e6 : (g.networkEndpointGroup.map Prod.fst).filter
      (fun j => (c.betaNetworkEndpointGroups j).isPresent) = [] :=
    List.filter_eq_nil_iff.2 fun j hj => by
      simp [(GetResult.not_hard_of_notFound (h6 j hj)).2]
  have hcountsOther : ∀ (options : Option GCLBDeleteOptions) (j : Key),
      j ∈ g.backendService.map Prod.fst → j ≠ k →
      backendServiceStillCounts c options j = false := by
    intro options j hj hjk
    have := hother j hj hjk
    cases hc : c.backendServices j with
    | ok v => rw [hc] at this; simp [GetResult.isNotFound] at this
    | err code msg => simp [backendServiceStillCounts, hc]
  -- With SkipDefaultBackend set, the default backend does not count either.
  have eSkip : (g.backendService.map Prod.fst).filter
      (backendServiceStillCounts c (some ⟨true⟩)) = [] := by
    refine List.filter_eq_nil_iff.2 fun j hj hpj => ?_
    by_cases hjk : j = k
    · subst hjk
      rw [backendServiceStillCounts, hbs] at hpj
      simp [effectiveSkipDefault, hdesc] at hpj
    · rw [hcountsOther _ j hj hjk] at hpj
      cases hpj
  -- Without the skip, exactly the default backend counts.
  have eKeep : ∀ options, effectiveSkipDefault options = false →
      (g.backendService.map Prod.fst).filter
        (backendServiceStillCounts c options) = [k] := by
    intro options hopt
    refine filter_eq_single hnd hk fun j hj => ⟨fun hpj => ?_, fun hjk => ?_⟩
    · by_contra hjk
      rw [hcountsOther options j hj hjk] at hpj
      cases hpj
    · subst hjk
      rw [backendServiceStillCounts, hbs, hopt]
      simp
  refine ⟨?_, ?_, ?_⟩
  · rw [checkResourceDeletion_aggregates g c (some ⟨true⟩) hnh]
    rw [stillPresentKeys, e1, e2, e3, e4, e6, eSkip]
    simp
  · rw [checkResourceDeletion_aggregates g c (some ⟨false⟩) hnh]
    rw [stillPresentKeys, e1, e2, e3, e4, e6,
      eKeep (some ⟨false⟩) (by simp [effectiveSkipDefault])]
    simp
  · rw [checkResourceDeletion_aggregates g c none hnh]
    rw [stillPresentKeys, e1, e2, e3, e4, e6,
      eKeep none (by simp [effectiveSkipDefault])]
    simp

/-- The still-present shared default backend service. -/
def defaultBackendBS : GABackendServiceWire :=
  { description := "kube-system/default-http-backend", backends := [] }

/-- A cloud where only the backend-service Get succeeds, returning the shared
default backend. -/
def defaultBackendCloud : Cloud :=
  { cloud404 with backendServices := fun _ => .ok defaultBackendBS }

/-- A graph recording one backend service (the shared default backend). -/
def defaultBackendGraph : GCLB :=
  { vip := "203.0.113.3"
    backendService := [(GlobalKey "bs-default", { GA := none })] }

/-- Witness for C4 at a concrete input. -/
theorem checkResourceDeletion_skipDefaultBackend_witness :
    CheckResourceDeletion defaultBackendGraph defaultBackendCloud (some ⟨true⟩) = .ok () ∧
    CheckResourceDeletion defaultBackendGraph defaultBackendCloud (some ⟨false⟩) =
      .error (.resourcesExist [GlobalKey "bs-default"]) ∧
    CheckResourceDeletion defaultBackendGraph defaultBackendCloud none =
      .error (.resourcesExist [GlobalKey "bs-default"]) :=
  checkResourceDeletion_skipDefaultBackend defaultBackendGraph defaultBackendCloud
    (GlobalKey "bs-default") defaultBackendBS (by decide) (by decide) (by decide)
    (by decide) (by decide) (by decide) (by decide) rfl (by decide) (by decide)

/-! ## GCLBForVIP — graph discovery from a VIP -/

/-- `NegResourceType`. -/
def NegResourceType : String := "networkEndpointGroup"

/-- `IgResourceType`. -/
def IgResourceType : String := "instanceGroup"

/-- Prefix test on character lists (structural). -/
def charsHasPrefix : List Char → List Char → Bool
  | _, [] => true
  | [], _ :: _ => false
  | c :: cs, d :: ds => c = d && charsHasPrefix cs ds

/-- Substring test on character lists (structural). -/
def charsContains (sub : List Char) : List Char → Bool
  | [] => charsHasPrefix [] sub
  | c :: cs => charsHasPrefix (c :: cs) sub || charsContains sub cs

/-- `strings.Contains(s, sub)`. -/
def strContains (s sub : String) : Bool := charsContains sub.data s.data

/-- `FeatureValidator` — contributes a required version and scope per resource kind.
In this source snapshot its data feeds only the unfinished `getGclb*` scaffolds and
the constantly-false `hasAlphaResource`/`hasBetaResource`. -/
structure FeatureValidator where
  forwardingRuleVersion : String := VersionGA
  urlMapVersion : String := VersionGA
  scope : String := "global"
deriving DecidableEq, Repr

/-- `hasAlphaResource(resourceType, validators)` — the source body is `return false`
unconditionally. -/
def hasAlphaResource (resourceType : String) (validators : List FeatureValidator) :
    Bool := false

/-- `hasBetaResource(resourceType, validators)` — the source body is `return false`
unconditionally. -/
def hasBetaResource (resourceType : String) (validators : List FeatureValidator) :
    Bool := false

/-- `getGclbForwardingRules(gclb, validators, vip)` — an unfinished scaffold in this
snapshot: it loops over validators switching on version and scope with every case
body empty, performing no observable update of the graph. -/
def getGclbForwardingRules (gclb : GCLB) (validators : List FeatureValidator)
    (vip : String) : GCLB := gclb

/-- `getGclbTargetProxies(gclb, validators)` — same empty-switch scaffold. -/
def getGclbTargetProxies (gclb : GCLB) (validators : List FeatureValidator) : GCLB :=
  gclb

/-- `getGclbUrlMaps(gclb, validators)` — same empty-switch scaffold. -/
def getGclbUrlMaps (gclb : GCLB) (validators : List FeatureValidator) : GCLB := gclb

/-- `getGclbBackendServices(gclb, validators)` — same empty-switch scaffold. -/
def getGclbBackendServices (gclb : GCLB) (validators : List FeatureValidator) : GCLB :=
  gclb

/-- `cloud.ParseResourceURL` — external parser; a reference is embedded as its
outcome, so parsing fails exactly when the reference is `none`. -/
def ParseResourceURL (r : Option ResourceID) : Except String ResourceID :=
  match r with
  | some resID => .ok resID
  | none => .error "error parsing resource URL"

/-- The body of the `for _, gfr := range gfrs` loop of `GCLBForVIP`: record the rule,
do the (dead) alpha/beta enrichment, fetch the target proxy, and enforce that its URL
map agrees with the one discovered so far. -/
def processForwardingRule (c : Cloud) (validators : List FeatureValidator)
    (st : GCLB × Option Key) (gfr : GAForwardingRule) :
    Except String (GCLB × Option Key) := do
  let (gclb, urlMapKey) := st
  let frKey := GlobalKey gfr.name
  let gclb := { gclb with
    forwardingRule := mapInsert gclb.forwardingRule frKey { GA := some gfr } }
  let gclb ←
    if hasAlphaResource "forwardingRule" validators then do
      let fr ← (c.alphaForwardingRulesGet frKey).toExcept
      pure { gclb with
        forwardingRule := mapUpdate gclb.forwardingRule frKey
          (fun u => { u with Alpha := some fr }) }
    else pure gclb
  if hasBetaResource "forwardingRule" validators then
    throw "unsupported forwardingRule version"
  let resID ← ParseResourceURL gfr.target
  if resID.resource = "targetHttpProxies" then do
    let p ← (c.targetHttpProxies resID.key).toExcept
    let gclb := { gclb with
      targetHTTPProxy := mapInsert gclb.targetHTTPProxy resID.key p }
    if hasAlphaResource "targetHttpProxy" validators ||
        hasBetaResource "targetHttpProxy" validators then
      throw "unsupported targetHttpProxy version"
    let urlMapResID ← ParseResourceURL p.urlMap
    let u2 := urlMapKey.getD urlMapResID.key
    if u2 ≠ urlMapResID.key then
      throw "targetHttpProxy references are not the same"
    pure (gclb, some u2)
  else if resID.resource = "targetHttpsProxies" then do
    let p ← (c.targetHttpsProxies resID.key).toExcept
    let gclb := { gclb with
      targetHTTPSProxy := mapInsert gclb.targetHTTPSProxy resID.key p }
    if hasAlphaResource "targetHttpsProxy" validators ||
        hasBetaResource "targetHttpsProxy" validators then
      throw "unsupported targetHttpsProxy version"
    let urlMapResID ← ParseResourceURL p.urlMap
    let u2 := urlMapKey.getD urlMapResID.key
    if u2 ≠ urlMapResID.key then
      throw "targetHttpsProxy references are not the same"
    pure (gclb, some u2)
  else
    throw ("unhandled resource " ++ resID.resource)

/-- The `for _, gfr := range gfrs` loop itself. -/
def processForwardingRules (c : Cloud) (validators : List FeatureValidator) :
    List GAForwardingRule → (GCLB × Option Key) → Except String (GCLB × Option Key)
  | [], st => .ok st
  | gfr :: rest, st => do
    let st2 ← processForwardingRule c validators st gfr
    processForwardingRules c validators rest st2

/-- The `for _, pr := range pm.PathRules` loop collecting backend-service keys. -/
def collectPathRuleKeys : List GAPathRule → List Key → Except String (List Key)
  | [], acc => .ok acc
  | pr :: rest, acc => do
    let resID ← ParseResourceURL pr.service
    collectPathRuleKeys rest (acc ++ [resID.key])

/-- The `for _, pm := range urlMap.PathMatchers` loop collecting backend-service
keys. -/
def collectPathMatcherKeys : List GAPathMatcher → List Key → Except String (List Key)
  | [], acc => .ok acc
  | pm :: rest, acc => do
    let resID ← ParseResourceURL pm.defaultService
    let acc2 ← collectPathRuleKeys pm.pathRules (acc ++ [resID.key])
    collectPathMatcherKeys rest acc2

/-- URLMap ⇒ BackendService(s): the default service, every path matcher's default
service, and every path rule's service. -/
def collectBackendServiceKeys (urlMap : GAUrlMap) : Except String (List Key) := do
  let resID ← ParseResourceURL urlMap.defaultService
  collectPathMatcherKeys urlMap.pathMatchers [resID.key]

/-- The `for _, bsKey := range bsKeys` fetch loop for backend services, with the
(dead) alpha/beta enrichment branches. -/
def fetchBackendServices (c : Cloud) (validators : List FeatureValidator) :
    GCLB → List Key → Except String GCLB
  | gclb, [] => .ok gclb
  | gclb, k :: rest => do
    let bs ← (c.backendServices k).toExcept
    let gclb := { gclb with
      backendService := mapInsert gclb.backendService k { GA := some bs } }
    let gclb ←
      if hasAlphaResource "backendService" validators then do
        let a ← (c.alphaBackendServices k).toExcept
        pure { gclb with
          backendService := mapUpdate gclb.backendService k
            (fun u => { u with Alpha := some a }) }
      else pure gclb
    let gclb ←
      if hasBetaResource "backendService" validators then do
        let b ← (c.betaBackendServices k).toExcept
        pure { gclb with
          backendService := mapUpdate gclb.backendService k
            (fun u => { u with Beta := some b }) }
      else pure gclb
    fetchBackendServices c validators gclb rest

/-- The `for _, group := range beGroups` loop: classify each group reference by
substring match on the resource-type path segment. -/
def classifyGroups : List GroupRef → List Key × List Key →
    Except String (List Key × List Key)
  | [], acc => .ok acc
  | gr :: rest, (negKeys, igKeys) => do
    let negKeys ←
      if strContains gr.url NegResourceType then do
        let resourceId ← ParseResourceURL gr.parsed
        pure (negKeys ++ [resourceId.key])
      else pure negKeys
    let igKeys ←
      if strContains gr.url IgResourceType then do
        let resourceId ← ParseResourceURL gr.parsed
        pure (igKeys ++ [resourceId.key])
      else pure igKeys
    classifyGroups rest (negKeys, igKeys)

/-- The NEG/IG key-collection loop: re-fetch each backend service (alpha when the
validators ask for it, beta otherwise) and classify its `Backends[].Group`
references. -/
def collectGroupKeys (c : Cloud) (validators : List FeatureValidator) :
    List Key → List Key × List Key → Except String (List Key × List Key)
  | [], acc => .ok acc
  | bsKey :: rest, acc => do
    let beGroups ←
      if hasAlphaResource "backendService" validators then do
        let bs ← (c.alphaBackendServices bsKey).toExcept
        pure bs.backends
      else do
        let bs ← (c.betaBackendServices bsKey).toExcept
        pure bs.backends
    let acc2 ← classifyGroups beGroups acc
    collectGroupKeys c validators rest acc2

/-- The `for _, negKey := range negKeys` fetch loop, with (dead) enrichment. -/
def fetchNegs (c : Cloud) (validators : List FeatureValidator) :
    GCLB → List Key → Except String GCLB
  | gclb, [] => .ok gclb
  | gclb, negKey :: rest => do
    let neg ← (c.networkEndpointGroups negKey).toExcept
    let gclb := { gclb with
      networkEndpointGroup := mapInsert gclb.networkEndpointGroup negKey
        { GA := some neg } }
    let gclb ←
      if hasAlphaResource NegResourceType validators then do
        let n ← (c.alphaNetworkEndpointGroups negKey).toExcept
        pure { gclb with
          networkEndpointGroup := mapUpdate gclb.networkEndpointGroup negKey
            (fun u => { u with Alpha := some n }) }
      else pure gclb
    let gclb ←
      if hasBetaResource NegResourceType validators then do
        let n ← (c.betaNetworkEndpointGroups negKey).toExcept
        pure { gclb with
          networkEndpointGroup := mapUpdate gclb.networkEndpointGroup negKey
            (fun u => { u with Beta := some n }) }
      else pure gclb
    fetchNegs c validators gclb rest

/-- The `for _, igKey := range igKeys` fetch loop. -/
def fetchIgs (c : Cloud) : GCLB → List Key → Except String GCLB
  | gclb, [] => .ok gclb
  | gclb, igKey :: rest => do
    let ig ← (c.instanceGroups igKey).toExcept
    fetchIgs c { gclb with instanceGroup := mapInsert gclb.instanceGroup igKey ig } rest

/-- TargetProxy ⇒ URLMap and everything below it.  With no matching forwarding rule
the Go code passes a nil `urlMapKey` pointer to Get; embedded as a failing call. -/
def discoverFromUrlMap (c : Cloud) (validators : List FeatureValidator) (gclb : GCLB)
    (urlMapKey : Option Key) : Except String GCLB := do
  let k ←
    match urlMapKey with
    | some k => pure k
    | none => throw "nil UrlMap key"
  let urlMap ← (c.urlMaps k).toExcept
  let gclb := { gclb with urlMap := mapInsert gclb.urlMap k urlMap }
  if hasAlphaResource "urlMap" validators || hasBetaResource "urlMap" validators then
    throw "unsupported urlMap version"
  let bsKeys ← collectBackendServiceKeys urlMap
  let gclb ← fetchBackendServices c validators gclb bsKeys
  let (negKeys, igKeys) ← collectGroupKeys c validators bsKeys ([], [])
  let gclb ← fetchNegs c validators gclb negKeys
  fetchIgs c gclb igKeys

/-- `GCLBForVIP(ctx, c, vip, validators)` — retrieves all of the resources
associated with the GCLB for a given VIP, or aborts with the first error. -/
def GCLBForVIP (c : Cloud) (vip : String) (validators : List FeatureValidator) :
    Except String GCLB := do
  let gclb := NewGCLB vip
  let gclb := getGclbForwardingRules gclb validators vip
  let gclb := getGclbTargetProxies gclb validators
  let gclb := getGclbUrlMaps gclb validators
  let gclb := getGclbBackendServices gclb validators
  let allGFRs ← c.listGlobalForwardingRules.toExcept
  let gfrs := allGFRs.filter (fun gfr => gfr.ipAddress = vip)
  let (gclb, urlMapKey) ← processForwardingRules c validators gfrs (gclb, none)
  discoverFromUrlMap c validators gclb urlMapKey

/-! ## Theorems for C1 -/

/-- Whether an `Except` computation produced a value. -/
def isOkE {ε α : Type} : Except ε α → Bool
  | .ok _ => true
  | .error _ => false

/-- The URL-map key a forwarding rule resolves to under cloud state `c`: parse its
target, fetch the referenced target proxy (HTTP or HTTPS), parse the proxy's URL-map
reference.  `none` when any of those steps cannot succeed. -/
def resolvedUrlMapKey (c : Cloud) (gfr : GAForwardingRule) : Option Key :=
  match gfr.target with
  | none => none
  | some resID =>
    if resID.resource = "targetHttpProxies" then
      match c.targetHttpProxies resID.key with
      | .ok p =>
        match p.urlMap with
        | some m => some m.key
        | none => none
      | .err _ _ => none
    else if resID.resource = "targetHttpsProxies" then
      match c.targetHttpsProxies resID.key with
      | .ok p =>
        match p.urlMap with
        | some m => some m.key
        | none => none
      | .err _ _ => none
    else none

theorem errBind {ε α β : Type} (e : ε) (f : α → Except ε β) :
    (Except.error e >>= f : Except ε β) = .error e := rfl

theorem throwEq {ε α : Type} (e : ε) : (throw e : Except ε α) = Except.error e := rfl

/-- A successful loop step determines the discovered URL-map key: the processed rule
resolves to some key `k`, the outgoing state records `k`, and any previously recorded
key must already have been `k`. -/
theorem processForwardingRule_ok {c : Cloud} {validators : List FeatureValidator}
    {g : GCLB} {u : Option Key} {g' : GCLB} {u' : Option Key} {gfr : GAForwardingRule}
    (h : processForwardingRule c validators (g, u) gfr = .ok (g', u')) :
    ∃ k, resolvedUrlMapKey c gfr = some k ∧ u' = some k ∧
      ∀ k0, u = some k0 → k0 = k := by
  simp only [processForwardingRule, hasAlphaResource, hasBetaResource,
    Bool.false_eq_true, if_false, Bool.or_self, pure_bind] at h
  cases hT : gfr.target with
  | none =>
    rw [hT] at h
    simp only [ParseResourceURL, errBind] at h
    cases h
  | some resID =>
    rw [hT] at h
    simp only [ParseResourceURL, okBind] at h
    by_cases hres : resID.resource = "targetHttpProxies"
    · rw [if_pos hres] at h
      cases hp : c.targetHttpProxies resID.key with
      | err code msg =>
        rw [hp] at h
        simp only [GetResult.toExcept, errBind] at h
        cases h
      | ok p =>
        rw [hp] at h
        simp only [GetResult.toExcept, okBind] at h
        cases hu : p.urlMap with
        | none =>
          rw [hu] at h
          simp only [errBind] at h
          cases h
        | some m =>
          rw [hu] at h
          simp only [okBind] at h
          by_cases heq : u.getD m.key = m.key
          · rw [if_neg (by simp [heq])] at h
            have hpair := Except.ok.inj h
            refine ⟨m.key, by simp [resolvedUrlMapKey, hT, hres, hp, hu], ?_, ?_⟩
            · have hu2 : u' = some (u.getD m.key) := (congrArg Prod.snd hpair).symm
              rw [hu2, heq]
            · intro k0 hk0
              rw [hk0] at heq
              simpa [Option.getD] using heq
          · rw [if_pos (by simp [heq])] at h
            simp only [throwEq, errBind] at h
            cases h
    · rw [if_neg hres] at h
      by_cases hres2 : resID.resource = "targetHttpsProxies"
      · rw [if_pos hres2] at h
        cases hp : c.targetHttpsProxies resID.key with
        | err code msg =>
          rw [hp] at h
          simp only [GetResult.toExcept, errBind] at h
          cases h
        | ok p =>
          rw [hp] at h
          simp only [GetResult.toExcept, okBind] at h
          cases hu : p.urlMap with
          | none =>
            rw [hu] at h
            simp only [errBind] at h
            cases h
          | some m =>
            rw [hu] at h
            simp only [okBind] at h
            by_cases heq : u.getD m.key = m.key
            · rw [if_neg (by simp [heq])] at h
              have hpair := Except.ok.inj h
              refine ⟨m.key, by simp [resolvedUrlMapKey, hT, hres, hres2, hp, hu], ?_, ?_⟩
              · have hu2 : u' = some (u.getD m.key) := (congrArg Prod.snd hpair).symm
                rw [hu2, heq]
              · intro k0 hk0
                rw [hk0] at heq
                simpa [Option.getD] using heq
            · rw [if_pos (by simp [heq])] at h
              simp only [throwEq, errBind] at h
              cases h
      · rw [if_neg hres2] at h
        simp only [throwEq] at h
        cases h

/-- Once a URL-map key is recorded, a successful loop keeps it unchanged. -/
theorem processForwardingRules_preserves (c : Cloud)
    (validators : List FeatureValidator) (l : List GAForwardingRule) :
    ∀ (g : GCLB) (k : Key) (g' : GCLB) (u' : Option Key),
      processForwardingRules c validators l (g, some k) = .ok (g', u') →
      u' = some k := by
  induction l with
  | nil =>
    intro g k g' u' h
    simp only [processForwardingRules] at h
    injection Except.ok.inj h with h1 h2
    exact h2.symm
  | cons a rest ih =>
    intro g k g' u' h
    simp only [processForwardingRules] at h
    cases hstep : processForwardingRule c validators (g, some k) a with
    | error e => rw [hstep, errBind] at h; cases h
    | ok st2 =>
      rw [hstep, okBind] at h
      obtain ⟨g2, u2⟩ := st2
      obtain ⟨k1, _, hu2, hprev⟩ := processForwardingRule_ok hstep
      have : k = k1 := hprev k rfl
      subst this
      rw [hu2] at h
      exact ih g2 k g' u' h

/-- A successful loop forces every member rule that resolves to a URL-map key to
agree with the final recorded key. -/
theorem processForwardingRules_mem (c : Cloud) (validators : List FeatureValidator)
    (l : List GAForwardingRule) :
    ∀ (g : GCLB) (u : Option Key) (g' : GCLB) (u' : Option Key)
      (gfr : GAForwardingRule) (k : Key),
      gfr ∈ l → resolvedUrlMapKey c gfr = some k →
      processForwardingRules c validators l (g, u) = .ok (g', u') →
      u' = some k := by
  induction l with
  | nil => intro g u g' u' gfr k hmem; cases hmem
  | cons a rest ih =>
    intro g u g' u' gfr k hmem hres h
    simp only [processForwardingRules] at h
    cases hstep : processForwardingRule c validators (g, u) a with
    | error e => rw [hstep, errBind] at h; cases h
    | ok st2 =>
      rw [hstep, okBind] at h
      obtain ⟨g2, u2⟩ := st2
      obtain ⟨k1, hres1, hu2, _⟩ := processForwardingRule_ok hstep
      rcases List.mem_cons.1 hmem with heq | hmem2
      · subst heq
        rw [hres] at hres1
        have hk : k = k1 := Option.some.inj hres1
        subst hk
        rw [hu2] at h
        exact processForwardingRules_preserves c validators rest g2 k g' u' h
      · exact ih g2 u2 g' u' gfr k hmem2 hres h

/-- C1: if two forwarding rules matching the VIP resolve (through their target
proxies) to two distinct URL-map keys, `GCLBForVIP` returns an error — it never
returns a graph, partial or otherwise. -/
theorem GCLBForVIP_urlMap_mismatch (c : Cloud) (vip : String)
    (validators : List FeatureValidator) (rules : List GAForwardingRule)
    (gfr1 gfr2 : GAForwardingRule) (k1 k2 : Key)
    (hlist : c.listGlobalForwardingRules = .ok rules)
    (hm1 : gfr1 ∈ rules) (hv1 : gfr1.ipAddress = vip)
    (hm2 : gfr2 ∈ rules) (hv2 : gfr2.ipAddress = vip)
    (hr1 : resolvedUrlMapKey c gfr1 = some k1)
    (hr2 : resolvedUrlMapKey c gfr2 = some k2)
    (hne : k1 ≠ k2) :
    isOkE (GCLBForVIP c vip validators) = false := by
  have hm1f : gfr1 ∈ rules.filter (fun gfr => gfr.ipAddress = vip) :=
    List.mem_filter.2 ⟨hm1, by simp [hv1]⟩
  have hm2f : gfr2 ∈ rules.filter (fun gfr => gfr.ipAddress = vip) :=
    List.mem_filter.2 ⟨hm2, by simp [hv2]⟩
  unfold GCLBForVIP
  dsimp only
  rw [hlist]
  simp only [GetResult.toExcept, okBind, getGclbForwardingRules,
    getGclbTargetProxies, getGclbUrlMaps, getGclbBackendServices]
  cases hfold : processForwardingRules c validators
      (rules.filter (fun gfr => gfr.ipAddress = vip)) (NewGCLB vip, none) with
  | error e =>
    simp [errBind, isOkE]
  | ok st =>
    obtain ⟨g1, u1⟩ := st
    have hu1 := processForwardingRules_mem c validators
      (rules.filter (fun gfr => gfr.ipAddress = vip)) (NewGCLB vip) none g1 u1
      gfr1 k1 hm1f hr1 hfold
    have hu2 := processForwardingRules_mem c validators
      (rules.filter (fun gfr => gfr.ipAddress = vip)) (NewGCLB vip) none g1 u1
      gfr2 k2 hm2f hr2 hfold
    rw [hu1] at hu2
    exact absurd (Option.some.inj hu2) hne

/-- First forwarding rule of the mismatch scenario: targets proxy "tp1". -/
def mismatchFR1 : GAForwardingRule :=
  { name := "fr1", ipAddress := "203.0.113.10",
    target := some ⟨"targetHttpProxies", GlobalKey "tp1"⟩ }

/-- Second forwarding rule of the mismatch scenario: targets proxy "tp2". -/
def mismatchFR2 : GAForwardingRule :=
  { name := "fr2", ipAddress := "203.0.113.10",
    target := some ⟨"targetHttpProxies", GlobalKey "tp2"⟩ }

/-- A cloud where two forwarding rules share the VIP but their proxies reference two
distinct URL maps. -/
def mismatchCloud : Cloud :=
  { cloud404 with
    listGlobalForwardingRules := .ok [mismatchFR1, mismatchFR2]
    targetHttpProxies := fun k =>
      if k = GlobalKey "tp1" then .ok { urlMap := some ⟨"urlMaps", GlobalKey "um1"⟩ }
      else .ok { urlMap := some ⟨"urlMaps", GlobalKey "um2"⟩ } }

/-- Witness for C1 at a concrete input. -/
theorem GCLBForVIP_urlMap_mismatch_witness :
    isOkE (GCLBForVIP mismatchCloud "203.0.113.10" []) = false :=
  GCLBForVIP_urlMap_mismatch mismatchCloud "203.0.113.10" []
    [mismatchFR1, mismatchFR2] mismatchFR1 mismatchFR2
    (GlobalKey "um1") (GlobalKey "um2") rfl (by decide) rfl (by decide) rfl
    (by decide) (by decide) (by decide)

/-! ## pkg/firewalls/controller.go — the sync loop -/

/-- A Kubernetes ingress, restricted to the attributes the firewall controller
reads.  The classification predicates of pkg/utils and pkg/annotations (not under
src/) are embedded as attributes of the ingress value. -/
structure Ingress where
  name : String
  isGCE : Bool := true
  isL7ILB : Bool := false
  suppressXPN : Bool := false
deriving DecidableEq, Repr

/-- `utils.IsGCEIngress` — embedded as an attribute. -/
def IsGCEIngress (ing : Ingress) : Bool := ing.isGCE

/-- `utils.IsGCEL7ILBIngress` — embedded as an attribute. -/
def IsGCEL7ILBIngress (ing : Ingress) : Bool := ing.isL7ILB

/-- `annotations.FromIngress(ing).SuppressFirewallXPNError()` — embedded as an
attribute. -/
def SuppressFirewallXPNError (ing : Ingress) : Bool := ing.suppressXPN

/-- The firewall pool's Sync error: either the cross-project `FirewallXPNError`
(recognised by type assertion in the source) or any other error. -/
inductive FwSyncError where
  | xpn (msg : String)
  | other (msg : String)
deriving DecidableEq, Repr

/-- The result of one `sync` invocation (`none` = success). -/
inductive SyncError where
  | storesNotSynced
  | nodeListErr (msg : String)
  | ilbRangeErr (msg : String)
  | fwErr (e : FwSyncError)
deriving DecidableEq, Repr

/-- The firewall controller's collaborators and the cluster state visible to one
`sync` invocation; outbound calls are embedded as fields. -/
structure FwEnv where
  hasSynced : Bool
  ingresses : List Ingress
  translateIngress : Ingress → List String
  enableL7Ilb : Bool
  updateServicePortsForILB : List String → Ingress → List String
  readyNodeNames : Except String (List String)
  gatherEndpointPorts : List String → List Nat
  ilbSubnetSourceRange : Except String String
  firewallPoolSync : List String → List Nat → List String → Option FwSyncError

/-- Observable side effects of one `sync` invocation: whether the firewall pool's GC
ran, the arguments and result of its Sync call if made, and the events recorded
(ingress name, message). -/
structure SyncTrace where
  gcCalled : Bool := false
  syncCall : Option (List String × List Nat × List String) := none
  syncResult : Option (Option FwSyncError) := none
  events : List (String × String) := []
deriving DecidableEq, Repr

/-- `ToSvcPorts` — translate each ingress and append its service ports, applying the
ILB port update when the flag is enabled and the ingress is an ILB ingress. -/
def ToSvcPorts (env : FwEnv) (ings : List Ingress) : List String :=
  ings.foldl
    (fun knownPorts ing =>
      let svcPorts := env.translateIngress ing
      let svcPorts :=
        if env.enableL7Ilb && IsGCEL7ILBIngress ing then
          env.updateServicePortsForILB svcPorts ing
        else svcPorts
      knownPorts ++ svcPorts)
    []

/-- `ilbFirewallSrcRange(gceIngresses)` — resolve the ILB subnet range when at least
one managed ingress requests internal L7; a resolution failure is wrapped. -/
def ilbFirewallSrcRange (env : FwEnv) (gceIngresses : List Ingress) :
    Except String String :=
  if gceIngresses.any IsGCEL7ILBIngress then
    match env.ilbSubnetSourceRange with
    | .error e => .error ("error unable to get ILB subnet source ranges: " ++ e)
    | .ok r => .ok r
  else .ok ""

/-- Step 7 of `sync`: call the firewall pool's idempotent Sync and classify its
error — an XPN error is downgraded to one event per non-opted-out managed ingress
and reported as success; any other error propagates. -/
def syncStep7 (env : FwEnv) (gceIngresses : List Ingress) (nodeNames : List String)
    (negPorts : List Nat) (additionalRanges : List String) :
    Option SyncError × SyncTrace :=
  let res := env.firewallPoolSync nodeNames negPorts additionalRanges
  let trace : SyncTrace :=
    { syncCall := some (nodeNames, negPorts, additionalRanges)
      syncResult := some res }
  match res with
  | some (.xpn m) =>
    let events := (gceIngresses.filter
      (fun ing => !SuppressFirewallXPNError ing)).map (fun ing => (ing.name, m))
    (none, { trace with events := events })
  | some (.other m) => (some (.fwErr (.other m)), trace)
  | none => (none, trace)

/-- One invocation of `(*FirewallController).sync`: the error result (nil = success)
together with the trace of side effects. -/
def firewallSync (env : FwEnv) : Option SyncError × SyncTrace :=
  if !env.hasSynced then (some .storesNotSynced, {})
  else
    let gceIngresses := env.ingresses.filter IsGCEIngress
    if gceIngresses.isEmpty then (none, { gcCalled := true })
    else
      let gceSvcPorts := ToSvcPorts env gceIngresses
      match env.readyNodeNames with
      | .error e => (some (.nodeListErr e), {})
      | .ok nodeNames =>
        let negPorts := env.gatherEndpointPorts gceSvcPorts
        let ilbStep : Except String (List String) :=
          if env.enableL7Ilb then
            match ilbFirewallSrcRange env gceIngresses with
            | .error e => .error e
            | .ok ilbRange => .ok [ilbRange]
          else .ok []
        match ilbStep with
        | .error e => (some (.ilbRangeErr e), {})
        | .ok additionalRanges =>
          syncStep7 env gceIngresses nodeNames negPorts additionalRanges

/-! ## Theorems for C5 and C6 -/

/-- C5: caches synced and no managed (GCE) ingress left — the firewall pool's GC
runs, its Sync is never called, and sync returns nil. -/
theorem firewallSync_no_ingresses (env : FwEnv) (hsynced : env.hasSynced = true)
    (hempty : env.ingresses.filter IsGCEIngress = []) :
    (firewallSync env).1 = none ∧ (firewallSync env).2.gcCalled = true ∧
    (firewallSync env).2.syncCall = none := by
  simp [firewallSync, hsynced, hempty]

/-- An environment with synced caches and no ingresses at all. -/
def idleFwEnv : FwEnv :=
  { hasSynced := true, ingresses := [], translateIngress := fun _ => [],
    enableL7Ilb := false, updateServicePortsForILB := fun sp _ => sp,
    readyNodeNames := .ok [], gatherEndpointPorts := fun _ => [],
    ilbSubnetSourceRange := .ok "", firewallPoolSync := fun _ _ _ => none }

/-- Witness for C5 at a concrete input. -/
theorem firewallSync_no_ingresses_witness :
    (firewallSync idleFwEnv).1 = none ∧ (firewallSync idleFwEnv).2.gcCalled = true ∧
    (firewallSync idleFwEnv).2.syncCall = none :=
  firewallSync_no_ingresses idleFwEnv rfl rfl

/-- In a list of ingresses with pairwise-distinct names, the event list built by
mapping the `p`-filtered list to (name, message) pairs contains the pair for `ing`
exactly once when `p ing` holds and not at all otherwise. -/
theorem count_event_of_nodup (m : String) (p : Ingress → Bool) :
    ∀ (l : List Ingress), (l.map Ingress.name).Nodup → ∀ ing ∈ l,
      ((l.filter p).map (fun i => (i.name, m))).count (ing.name, m) =
        if p ing then 1 else 0 := by
  intro l
  induction l with
  | nil => intro _ ing hing; cases hing
  | cons a rest ih =>
    intro hnd ing hing
    have hna : a.name ∉ rest.map Ingress.name := (List.nodup_cons.1 hnd).1
    have hnd2 := (List.nodup_cons.1 hnd).2
    have hzero : ∀ x : Ingress, x.name ∉ rest.map Ingress.name →
        ((rest.filter p).map (fun i => (i.name, m))).count (x.name, m) = 0 := by
      intro x hx
      rw [List.count_eq_zero]
      intro hmem2
      obtain ⟨i, hi, hi2⟩ := List.mem_map.1 hmem2
      have hiname : i.name = x.name := congrArg Prod.fst hi2
      exact hx (hiname ▸ List.mem_map_of_mem Ingress.name (List.mem_of_mem_filter hi))
    rcases List.mem_cons.1 hing with heq | hmem
    · subst heq
      by_cases hp : p ing
      · simp [List.filter_cons, hp, List.count_cons, hzero ing hna]
      · simp [List.filter_cons, hp, hzero ing hna]
    · have hne2 : ing.name ≠ a.name := by
        intro hcontra
        exact hna (hcontra ▸ List.mem_map_of_mem Ingress.name hmem)
      by_cases hp : p a
      · simp only [List.filter_cons, hp, if_true, List.map_cons]
        rw [List.count_cons_of_ne (by simp [hne2])]
        exact ih hnd2 ing hmem
      · simp [List.filter_cons, hp, ih hnd2 ing hmem]


theorem syncStep7_xpn (env : FwEnv) (gceIngresses : List Ingress)
    (nodeNames : List String) (negPorts : List Nat) (additionalRanges : List String)
    (m : String)
    (hres : env.firewallPoolSync nodeNames negPorts additionalRanges =
      some (.xpn m)) :
    syncStep7 env gceIngresses nodeNames negPorts additionalRanges =
      (none,
        { syncCall := some (nodeNames, negPorts, additionalRanges)
          syncResult := some (some (.xpn m))
          events := (gceIngresses.filter (fun ing => !SuppressFirewallXPNError ing)).map
            (fun ing => (ing.name, m)) }) := by
  simp [syncStep7, hres]

theorem syncStep7_other (env : FwEnv) (gceIngresses : List Ingress)
    (nodeNames : List String) (negPorts : List Nat) (additionalRanges : List String)
    (m : String)
    (hres : env.firewallPoolSync nodeNames negPorts additionalRanges =
      some (.other m)) :
    syncStep7 env gceIngresses nodeNames negPorts additionalRanges =
      (some (.fwErr (.other m)),
        { syncCall := some (nodeNames, negPorts, additionalRanges)
          syncResult := some (some (.other m)) }) := by
  simp [syncStep7, hres]

theorem syncStep7_noerr (env : FwEnv) (gceIngresses : List Ingress)
    (nodeNames : List String) (negPorts : List Nat) (additionalRanges : List String)
    (hres : env.firewallPoolSync nodeNames negPorts additionalRanges = none) :
    syncStep7 env gceIngresses nodeNames negPorts additionalRanges =
      (none,
        { syncCall := some (nodeNames, negPorts, additionalRanges)
          syncResult := some none }) := by
  simp [syncStep7, hres]

/-- Classification of the firewall pool's Sync error, once `sync` has reached the
Sync call. -/
theorem step7_classification (env : FwEnv) (gceIngresses : List Ingress)
    (nodeNames : List String) (negPorts : List Nat) (additionalRanges : List String)
    (hndf : (gceIngresses.map Ingress.name).Nodup)
    (heq : firewallSync env =
      syncStep7 env gceIngresses nodeNames negPorts additionalRanges)
    (r : Option FwSyncError) (hcall : (firewallSync env).2.syncResult = some r) :
    (∀ m, r = some (.xpn m) →
      (firewallSync env).1 = none ∧
      ∀ ing ∈ gceIngresses,
        (firewallSync env).2.events.count (ing.name, m) =
          if SuppressFirewallXPNError ing then 0 else 1) ∧
    (∀ m, r = some (.other m) →
      (firewallSync env).1 = some (.fwErr (.other m))) := by
  rw [heq] at hcall ⊢
  cases hres : env.firewallPoolSync nodeNames negPorts additionalRanges with
  | none =>
    rw [syncStep7_noerr env gceIngresses nodeNames negPorts additionalRanges hres]
      at hcall
    have hr : r = none := by simpa using hcall.symm
    subst hr
    exact ⟨(fun m hm => nomatch hm), (fun m hm => nomatch hm)⟩
  | some fw =>
    cases fw with
    | xpn m0 =>
      have hstep := syncStep7_xpn env gceIngresses nodeNames negPorts
        additionalRanges m0 hres
      rw [hstep] at hcall ⊢
      have hr : r = some (.xpn m0) := by simpa using hcall.symm
      subst hr
      refine ⟨fun m hm => ?_, (fun m hm => nomatch hm)⟩
      have hm0 : m0 = m := by
        injection hm with hm2
        injection hm2
      subst hm0
      refine ⟨rfl, fun ing hing => ?_⟩
      have hcount := count_event_of_nodup m0
        (fun ing => !SuppressFirewallXPNError ing) gceIngresses hndf ing hing
      simp only []
      rw [hcount]
      cases hsup : SuppressFirewallXPNError ing <;> simp [hsup]
    | other m0 =>
      have hstep := syncStep7_other env gceIngresses nodeNames negPorts
        additionalRanges m0 hres
      rw [hstep] at hcall ⊢
      have hr : r = some (.other m0) := by simpa using hcall.symm
      subst hr
      refine ⟨(fun m hm => nomatch hm), fun m hm => ?_⟩
      have hm0 : m0 = m := by
        injection hm with hm2
        injection hm2
      subst hm0
      rfl

/-- C6: when the firewall pool's Sync was invoked and returned an XPN
(cross-project/Shared-VPC) error, sync returns nil and exactly one event is recorded
against each managed ingress that has not opted out via the suppress annotation
(none for those that opted out); a non-XPN error from Sync is returned as the sync
result.  Ingress names are assumed pairwise distinct. -/
theorem firewallSync_xpn_classification (env : FwEnv)
    (hnames : (env.ingresses.map Ingress.name).Nodup) (r : Option FwSyncError)
    (hcall : (firewallSync env).2.syncResult = some r) :
    (∀ m, r = some (.xpn m) →
      (firewallSync env).1 = none ∧
      ∀ ing ∈ env.ingresses.filter IsGCEIngress,
        (firewallSync env).2.events.count (ing.name, m) =
          if SuppressFirewallXPNError ing then 0 else 1) ∧
    (∀ m, r = some (.other m) →
      (firewallSync env).1 = some (.fwErr (.other m))) := by
  have hndf : ((env.ingresses.filter IsGCEIngress).map Ingress.name).Nodup :=
    hnames.sublist ((List.filter_sublist env.ingresses).map Ingress.name)
  cases hs : env.hasSynced with
  | false => simp [firewallSync, hs] at hcall
  | true =>
    cases hEmp : (env.ingresses.filter IsGCEIngress).isEmpty with
    | true => simp [firewallSync, hs, hEmp] at hcall
    | false =>
      cases hnn : env.readyNodeNames with
      | error e => simp [firewallSync, hs, hEmp, hnn] at hcall
      | ok nodeNames =>
        cases hilb : env.enableL7Ilb with
        | false =>
          have heq : firewallSync env =
              syncStep7 env (env.ingresses.filter IsGCEIngress) nodeNames
                (env.gatherEndpointPorts
                  (ToSvcPorts env (env.ingresses.filter IsGCEIngress))) [] := by
            simp [firewallSync, hs, hEmp, hnn, hilb]
          exact step7_classification env _ nodeNames _ [] hndf heq r hcall
        | true =>
          cases hrange : ilbFirewallSrcRange env
              (env.ingresses.filter IsGCEIngress) with
          | error e => simp [firewallSync, hs, hEmp, hnn, hilb, hrange] at hcall
          | ok rr =>
            have heq : firewallSync env =
                syncStep7 env (env.ingresses.filter IsGCEIngress) nodeNames
                  (env.gatherEndpointPorts
                    (ToSvcPorts env (env.ingresses.filter IsGCEIngress))) [rr] := by
              simp [firewallSync, hs, hEmp, hnn, hilb, hrange]
            exact step7_classification env _ nodeNames _ [rr] hndf heq r hcall

/-- One managed ingress that has not opted out of XPN events. -/
def xpnIng : Ingress := { name := "ing1" }

/-- An environment whose firewall pool Sync fails with an XPN error. -/
def xpnFwEnv : FwEnv :=
  { hasSynced := true, ingresses := [xpnIng], translateIngress := fun _ => [],
    enableL7Ilb := false, updateServicePortsForILB := fun sp _ => sp,
    readyNodeNames := .ok ["node1"], gatherEndpointPorts := fun _ => [],
    ilbSubnetSourceRange := .ok "",
    firewallPoolSync := fun _ _ _ => some (.xpn "firewall change required by network admin") }

/-- Witness for C6 at a concrete input: sync reports success and exactly one XPN
event is recorded against the single managed ingress. -/
theorem firewallSync_xpn_classification_witness :
    (firewallSync xpnFwEnv).1 = none ∧
    (firewallSync xpnFwEnv).2.events.count
      ("ing1", "firewall change required by network admin") = 1 := by
  have h := firewallSync_xpn_classification xpnFwEnv (by decide)
    (some (.xpn "firewall change required by network admin")) (by decide)
  have h1 := h.1 "firewall change required by network admin" rfl
  have h2 := h1.2 xpnIng (by decide)
  exact ⟨h1.1, h2.trans (by decide)⟩

/-! ## The backend pool (Backends.Get) and the composite conversions -/

/-- The composite cloud collaborator (pkg/composite, generated code not under src/):
`GetBackendService(version, key)` fetches the wire object at the given version and
converts it to the composite type, per the `GetBackendService` template of
gen/main.go; `CreateKey(name, regional)` builds a regional or global key. -/
structure CompositeCloud where
  region : String
  getBackendService : String → Key → Except String CompositeBackendService

/-- `CreateKey(name, regional)`. -/
def CompositeCloud.CreateKey (cc : CompositeCloud) (name : String) (regional : Bool) :
    Key :=
  if regional then RegionalKey name cc.region else GlobalKey name

/-- `Backends` — the backend pool, restricted to the collaborator used by `Get`. -/
structure Backends where
  compositeCloud : CompositeCloud

/-- `(*Backends).Get(name, version, regional)` — fetch at the intended version, then
recover the version required by the features recorded in the description; when that
requirement is a lower (less stable) version than the intended one, re-fetch at the
required version so no feature data is lost. -/
def Backends.Get (b : Backends) (name : String) (version : String) (regional : Bool) :
    Except String CompositeBackendService := do
  let be ← b.compositeCloud.getBackendService version
    (b.compositeCloud.CreateKey name regional)
  let versionRequired := VersionFromDescription be.Description
  if IsLowerVersion versionRequired version then
    b.compositeCloud.getBackendService versionRequired
      (b.compositeCloud.CreateKey name regional)
  else
    pure be

/-- C7: when the first fetch succeeds, `Backends.Get` returns the re-fetch at the
required version exactly when that required version is strictly less stable than the
requested one, and the first fetch's object unchanged otherwise. -/
theorem backendsGet_refetch (b : Backends) (name : String) (version : String)
    (regional : Bool) (be : CompositeBackendService)
    (hfetch : b.compositeCloud.getBackendService version
      (b.compositeCloud.CreateKey name regional) = .ok be) :
    (IsLowerVersion (VersionFromDescription be.Description) version = true →
      Backends.Get b name version regional =
        b.compositeCloud.getBackendService (VersionFromDescription be.Description)
          (b.compositeCloud.CreateKey name regional)) ∧
    (IsLowerVersion (VersionFromDescription be.Description) version = false →
      Backends.Get b name version regional = .ok be) := by
  constructor <;> intro hlow <;> simp [Backends.Get, hfetch, okBind, hlow] <;> rfl

/-- A composite cloud whose stored backend service requires the alpha track (its
description carries the "alpha" marker); the alpha read returns the full object, the
GA read a projection of it. -/
def refetchCloud : CompositeCloud :=
  { region := "us-central1"
    getBackendService := fun v _ =>
      if v = VersionAlpha then
        .ok { Version := "", Name := "bs1", Description := "svc1,alpha",
              LocalityLbPolicy := "MAGLEV" }
      else .ok { Version := "", Name := "bs1", Description := "svc1,alpha" } }

/-- Witness for C7 at a concrete input: a GA-intended read of an alpha-requiring
backend service returns the alpha re-fetch (with its alpha-only field intact). -/
theorem backendsGet_refetch_witness :
    Backends.Get { compositeCloud := refetchCloud } "bs1" VersionGA false =
      .ok { Version := "", Name := "bs1", Description := "svc1,alpha",
            LocalityLbPolicy := "MAGLEV" } := by
  have h := backendsGet_refetch { compositeCloud := refetchCloud } "bs1" VersionGA
    false { Version := "", Name := "bs1", Description := "svc1,alpha" } (by rfl)
  exact (h.1 (by decide)).trans (by rfl)

/-! ## Composite wire conversions (gen/main.go templates) -/

/-- `compute.BackendService` (GA wire schema) — representative fields. -/
structure BackendServiceGAType where
  Name : String := ""
  Description : String := ""
  Port : Int := 0
deriving DecidableEq, Repr

/-- `computebeta.BackendService` (beta wire schema) — GA plus `SecurityPolicy`. -/
structure BackendServiceBetaType where
  Name : String := ""
  Description : String := ""
  Port : Int := 0
  SecurityPolicy : String := ""
deriving DecidableEq, Repr

/-- `computealpha.BackendService` (alpha wire schema) — the superset of all fields
(the generator builds the composite shape from the alpha schema). -/
structure BackendServiceAlphaType where
  Name : String := ""
  Description : String := ""
  Port : Int := 0
  SecurityPolicy : String := ""
  LocalityLbPolicy : String := ""
deriving DecidableEq, Repr

/-- A wire object at one of the three versions. -/
inductive WireBackendService where
  | ga (o : BackendServiceGAType)
  | beta (o : BackendServiceBetaType)
  | alpha (o : BackendServiceAlphaType)
deriving DecidableEq, Repr

/-- The maturity track a wire object belongs to. -/
def WireBackendService.version : WireBackendService → String
  | .ga _ => VersionGA
  | .beta _ => VersionBeta
  | .alpha _ => VersionAlpha

/-- `toBackendService(obj)` — the generated JSON marshal/unmarshal into the
composite type: identically-named fields are copied; fields the source schema lacks
stay at their zero values, in particular the bookkeeping `Version`, which no wire
schema carries. -/
def toBackendService : WireBackendService → CompositeBackendService
  | .ga o => { Name := o.Name, Description := o.Description, Port := o.Port }
  | .beta o => { Name := o.Name, Description := o.Description, Port := o.Port,
                 SecurityPolicy := o.SecurityPolicy }
  | .alpha o => { Name := o.Name, Description := o.Description, Port := o.Port,
                  SecurityPolicy := o.SecurityPolicy,
                  LocalityLbPolicy := o.LocalityLbPolicy }

/-- `toGA()` — JSON round-trip into the GA wire type; fields the GA schema lacks are
dropped. -/
def CompositeBackendService.toGA (c : CompositeBackendService) :
    BackendServiceGAType :=
  { Name := c.Name, Description := c.Description, Port := c.Port }

/-- `toBeta()`. -/
def CompositeBackendService.toBeta (c : CompositeBackendService) :
    BackendServiceBetaType :=
  { Name := c.Name, Description := c.Description, Port := c.Port,
    SecurityPolicy := c.SecurityPolicy }

/-- `toAlpha()`. -/
def CompositeBackendService.toAlpha (c : CompositeBackendService) :
    BackendServiceAlphaType :=
  { Name := c.Name, Description := c.Description, Port := c.Port,
    SecurityPolicy := c.SecurityPolicy, LocalityLbPolicy := c.LocalityLbPolicy }

/-- Dispatch to the wire type of the given version, defaulting to GA exactly as the
generated `switch version` statements do. -/
def CompositeBackendService.toVersion (c : CompositeBackendService) (v : String) :
    WireBackendService :=
  if v = VersionAlpha then .alpha c.toAlpha
  else if v = VersionBeta then .beta c.toBeta
  else .ga c.toGA

/-- Follows the spec's words: the canonical value "restricted to the fields present
at `v`" — fields introduced only at higher (less stable) versions are zeroed, as is
the controller-only `Version` marker, which is not part of any wire schema. -/
def restrictToVersion (c : CompositeBackendService) (v : String) :
    CompositeBackendService :=
  if v = VersionAlpha then { c with Version := "" }
  else if v = VersionBeta then { c with Version := "", LocalityLbPolicy := "" }
  else { c with Version := "", LocalityLbPolicy := "", SecurityPolicy := "" }

/-- C8: converting a canonical value to version `v` and back to canonical yields the
canonical value restricted to the fields present at `v` (higher-version-only fields
are dropped, with no error); in particular, for a wire object `o` at version `v`,
`toCanonical(canonical(o).toVersion(v)) = canonical(o)` on the nose. -/
theorem roundTrip_restricts :
    (∀ (c : CompositeBackendService) (v : String),
      toBackendService (c.toVersion v) = restrictToVersion c v) ∧
    (∀ o : WireBackendService,
      toBackendService ((toBackendService o).toVersion o.version) =
        toBackendService o) := by
  constructor
  · intro c v
    unfold CompositeBackendService.toVersion restrictToVersion
    by_cases ha : v = VersionAlpha
    · rw [if_pos ha, if_pos ha]; rfl
    · rw [if_neg ha, if_neg ha]
      by_cases hb : v = VersionBeta
      · rw [if_pos hb, if_pos hb]; rfl
      · rw [if_neg hb, if_neg hb]; rfl
  · intro o
    cases o <;> rfl
